import Mathlib

set_option maxRecDepth 4000

/-!
Verification of `release/make_scoop_manifest.py`.

The script reads `cargo metadata` output, extracts `packages[0].version` and
`packages[0].description`, builds a Scoop manifest mapping and prints it with
`json.dumps(manifest, indent=4)`.  We model the metadata input, the manifest
construction, the serializer (`json.dumps` with `indent=4` and the default
`ensure_ascii=True` escaping) and a JSON parser used to state the round-trip
property.
-/

namespace TMaze

/-- Package entry of the `cargo metadata` output: it may or may not carry
`version` and `description` fields (a missing field makes the Python dict
lookup raise a fatal `KeyError`), plus arbitrary further content. -/
structure Package where
  version : Option String
  description : Option String
  extra : List (String × String)
deriving Repr, DecidableEq

/-- Metadata document produced by `cargo metadata`: a `packages` list plus
arbitrary further top-level content. -/
structure Metadata where
  packages : List Package
  extra : List (String × String)
deriving Repr, DecidableEq

/-- JSON values as used by the script: the manifest only contains strings and
objects (Python dicts, which preserve insertion order). -/
inductive Json where
  | str : String → Json
  | obj : List (String × Json) → Json
deriving Repr, BEq

/-- Key lookup in a JSON object, `none` on anything else (models `d[k]`
with `none` for `KeyError`). -/
def getKey (j : Json) (k : String) : Option Json :=
  match j with
  | Json.obj kvs => (kvs.find? (fun kv => kv.1 == k)).map (fun kv => kv.2)
  | Json.str _ => none

/-- Iterated key lookup along a path of keys (models `d[k1][k2]...`). -/
def getPath (j : Json) : List String → Option Json
  | [] => some j
  | k :: ks =>
    match getKey j k with
    | some j2 => getPath j2 ks
    | none => none

/-- The constant `tmaze_url` of the script. -/
def tmaze_url : String := "https://github.com/ur-fault/tmaze"

/-- The f-string `release_assets` of the script. -/
def release_assets (version : String) : String :=
  tmaze_url ++ "/releases/download/" ++ version

/-- The f-string `download_url` of the script. -/
def download_url (version : String) : String :=
  release_assets version ++ "/tmaze-" ++ version ++ "-win-x86_64.exe#/tmaze.exe"

/-- The f-string `scoop_manifest` of the script. -/
def scoop_manifest (version : String) : String :=
  release_assets version ++ "/tmaze.json"

/-- The `manifest` dict literal of the script.  Note that the `checkver.url`
entry is the plain string literal `"\x7bscoop_manifest\x7d"` in the source (not an
f-string), so it is emitted verbatim, not interpolated. -/
def manifest (version desc : String) : Json :=
  Json.obj
    [("version", Json.str version),
     ("architecture", Json.obj
       [("64bit", Json.obj [("url", Json.str (download_url version))]),
        ("checkver", Json.obj
          [("url", Json.str "\x7bscoop_manifest\x7d"),
           ("jsonpath", Json.str "$.version")]),
        ("autoupdate", Json.obj [])]),
     ("description", Json.str desc),
     ("homepage", Json.str tmaze_url)]

/-- Hex digit character (lowercase), as produced by Python's `'%04x'`
formatting inside `json.dumps`. -/
def hexDigit (n : Nat) : Char :=
  if n < 10 then Char.ofNat (48 + n) else Char.ofNat (87 + n)

/-- Four-digit lowercase hex rendering of `n < 0x10000`. -/
def hex4 (n : Nat) : List Char :=
  [hexDigit (n / 4096 % 16), hexDigit (n / 256 % 16), hexDigit (n / 16 % 16),
   hexDigit (n % 16)]

/-- Escaping of a single character exactly as CPython's
`json.encoder.py_encode_basestring_ascii` (the default `ensure_ascii=True`):
backslash, quote and the five named controls get two-character escapes, other
characters outside `0x20..0x7e` become `\uXXXX` (a surrogate pair for
code points above `0xffff`), the rest stand for themselves. -/
def escapeChar (c : Char) : List Char :=
  if c = '"' then ['\\', '"']
  else if c = '\\' then ['\\', '\\']
  else if c = '\x08' then ['\\', 'b']
  else if c = '\x0c' then ['\\', 'f']
  else if c = '\n' then ['\\', 'n']
  else if c = '\r' then ['\\', 'r']
  else if c = '\t' then ['\\', 't']
  else if 0x20 ≤ c.toNat ∧ c.toNat ≤ 0x7e then [c]
  else if c.toNat < 0x10000 then '\\' :: 'u' :: hex4 c.toNat
  else
    ('\\' :: 'u' :: hex4 (0xd800 + (c.toNat - 0x10000) / 0x400)) ++
    ('\\' :: 'u' :: hex4 (0xdc00 + (c.toNat - 0x10000) % 0x400))

/-- JSON string literal rendering: quote, escaped characters, quote. -/
def escapeString (s : String) : String :=
  String.mk ('"' :: (s.data.flatMap escapeChar ++ ['"']))

/-- Run of `n` spaces (indentation). -/
def spaces (n : Nat) : String := String.mk (List.replicate n ' ')

mutual

/-- Serialization of a JSON value at indentation level `lvl`, following
`json.dumps(..., indent=4)`: an empty dict prints as `\x7b\x7d`; a non-empty dict
opens a line, prints the members each on its own line indented one level
deeper and separated by commas, and closes at the current level. -/
def dumpsVal : Json → Nat → String
  | Json.str s, _ => escapeString s
  | Json.obj [], _ => "\x7b\x7d"
  | Json.obj (kv :: kvs), lvl =>
    "\x7b\n" ++ dumpsMembers (kv :: kvs) (lvl + 1) ++ "\n" ++ spaces (lvl * 4) ++ "\x7d"

/-- Serialization of the members of a non-empty object, one per line with
`4 * lvl` spaces of indentation and `": "` between key and value. -/
def dumpsMembers : List (String × Json) → Nat → String
  | [], _ => ""
  | [(k, v)], lvl => spaces (lvl * 4) ++ escapeString k ++ ": " ++ dumpsVal v lvl
  | (k, v) :: kv :: kvs, lvl =>
    spaces (lvl * 4) ++ escapeString k ++ ": " ++ dumpsVal v lvl ++ ",\n" ++
      dumpsMembers (kv :: kvs) lvl

end

/-- The call `json.dumps(manifest, indent=4)` of the script. -/
def dumps (j : Json) : String := dumpsVal j 0

/-- The lookup `metadata["packages"][0]` of the script (`none` models the
fatal `IndexError` on an empty list). -/
def tmaze_metadata (m : Metadata) : Option Package :=
  m.packages.head?

/-- The manifest the script builds from the metadata: `none` models a fatal
uncaught lookup error (empty `packages`, or `packages[0]` missing `version`
or `description`). -/
def runManifest (m : Metadata) : Option Json :=
  match tmaze_metadata m with
  | none => none
  | some p =>
    match p.version, p.description with
    | some version, some desc => some (manifest version desc)
    | _, _ => none

/-- The text printed by `print(dumps(manifest, indent=4))`, or `none` when the
script dies with an uncaught error before reaching the `print`. -/
def run (m : Metadata) : Option String :=
  (runManifest m).map (fun j => dumps j)

/-! A JSON parser (strings and objects, RFC 8259 syntax restricted to the
value forms the manifest uses), used to state the serialize/parse round-trip
property.  It follows `json.loads` on this fragment: insignificant whitespace
is skipped, string escapes including `\uXXXX` and surrogate pairs are
decoded. -/

/-- Skip JSON insignificant whitespace. -/
def skipWs : List Char → List Char
  | [] => []
  | c :: l => if c = ' ' ∨ c = '\n' ∨ c = '\t' ∨ c = '\r' then skipWs l else c :: l

/-- Value of one hex digit character. -/
def hexVal (c : Char) : Option Nat :=
  if '0' ≤ c ∧ c ≤ '9' then some (c.toNat - 48)
  else if 'a' ≤ c ∧ c ≤ 'f' then some (c.toNat - 87)
  else if 'A' ≤ c ∧ c ≤ 'F' then some (c.toNat - 55)
  else none

/-- Read four hex digit characters into a number below `0x10000`. -/
def readHex4 (a b c d : Char) : Option Nat :=
  match hexVal a, hexVal b, hexVal c, hexVal d with
  | some x, some y, some z, some w => some (((x * 16 + y) * 16 + z) * 16 + w)
  | _, _, _, _ => none

/-- Decode the low half of a `\uXXXX\uXXXX` surrogate pair, given the decoded
high half `n` (in `0xd800..0xdbff`). -/
def readLowSurrogate (n : Nat) : List Char → Option (Char × List Char)
  | e2 :: u2 :: a2 :: b2 :: c2 :: d2 :: rest3 =>
    if e2 = '\\' ∧ u2 = 'u' then
      match readHex4 a2 b2 c2 d2 with
      | some m =>
        if 0xdc00 ≤ m ∧ m ≤ 0xdfff then
          some (Char.ofNat (0x10000 + (n - 0xd800) * 0x400 + (m - 0xdc00)), rest3)
        else none
      | none => none
    else none
  | _ => none

/-- Decode a `\uXXXX` escape body (after the `\u`): a BMP scalar value on its
own, or a surrogate pair combined into one code point. -/
def readUnicode : List Char → Option (Char × List Char)
  | a :: b :: c :: d :: rest2 =>
    match readHex4 a b c d with
    | some n =>
      if n < 0xd800 ∨ 0xdfff < n then some (Char.ofNat n, rest2)
      else if n ≤ 0xdbff then readLowSurrogate n rest2
      else none
    | none => none
  | _ => none

/-- Decode one string escape (the input starts right after the backslash),
returning the decoded character and the remaining input. -/
def readEscape : List Char → Option (Char × List Char)
  | [] => none
  | e :: rest1 =>
    if e = '"' then some ('"', rest1)
    else if e = '\\' then some ('\\', rest1)
    else if e = '/' then some ('/', rest1)
    else if e = 'b' then some ('\x08', rest1)
    else if e = 'f' then some ('\x0c', rest1)
    else if e = 'n' then some ('\n', rest1)
    else if e = 'r' then some ('\r', rest1)
    else if e = 't' then some ('\t', rest1)
    else if e = 'u' then readUnicode rest1
    else none

theorem readLowSurrogate_length {n : Nat} {l : List Char} {p : Char × List Char}
    (h : readLowSurrogate n l = some p) : p.2.length < l.length := by
  match l with
  | e2 :: u2 :: a2 :: b2 :: c2 :: d2 :: rest3 =>
    rw [readLowSurrogate] at h
    by_cases hp : e2 = '\\' ∧ u2 = 'u'
    · rw [if_pos hp] at h
      cases hr : readHex4 a2 b2 c2 d2 with
      | none => rw [hr] at h; simp only [] at h; cases h
      | some m =>
        rw [hr] at h
        simp only [] at h
        by_cases hm : 0xdc00 ≤ m ∧ m ≤ 0xdfff
        · rw [if_pos hm] at h
          have hp2 := Option.some.inj h
          subst hp2
          simp only [List.length_cons]
          omega
        · rw [if_neg hm] at h; cases h
    · rw [if_neg hp] at h; cases h
  | [] => cases h
  | [_] => cases h
  | [_, _] => cases h
  | [_, _, _] => cases h
  | [_, _, _, _] => cases h
  | [_, _, _, _, _] => cases h

theorem readUnicode_length {l : List Char} {p : Char × List Char}
    (h : readUnicode l = some p) : p.2.length < l.length := by
  match l with
  | a :: b :: c :: d :: rest2 =>
    rw [readUnicode] at h
    cases hr : readHex4 a b c d with
    | none => rw [hr] at h; simp only [] at h; cases h
    | some n =>
      rw [hr] at h
      simp only [] at h
      by_cases hn : n < 0xd800 ∨ 0xdfff < n
      · rw [if_pos hn] at h
        have hp2 := Option.some.inj h
        subst hp2
        simp only [List.length_cons]
        omega
      · rw [if_neg hn] at h
        by_cases hb : n ≤ 0xdbff
        · rw [if_pos hb] at h
          have := readLowSurrogate_length h
          simp only [List.length_cons] at this ⊢
          omega
        · rw [if_neg hb] at h; cases h
  | [] => cases h
  | [_] => cases h
  | [_, _] => cases h
  | [_, _, _] => cases h

theorem readEscape_length {l : List Char} {p : Char × List Char}
    (h : readEscape l = some p) : p.2.length < l.length := by
  match l with
  | [] => cases h
  | e :: rest1 =>
    rw [readEscape] at h
    split_ifs at h <;>
      first
      | (have hp2 := Option.some.inj h
         subst hp2
         simp only [List.length_cons]
         omega)
      | (have hul := readUnicode_length h
         simp only [List.length_cons]
         omega)

/-- Parse the body of a JSON string after the opening quote, returning the
decoded characters and the input after the closing quote.  Escapes are
decoded by `readEscape`; unescaped control characters are rejected (strict
mode of `json.loads`). -/
def parseStringBody : List Char → Option (List Char × List Char)
  | [] => none
  | c :: rest =>
    if c = '"' then some ([], rest)
    else if c = '\\' then
      match h : readEscape rest with
      | some (ch, rest1) => (parseStringBody rest1).map (fun p => (ch :: p.1, p.2))
      | none => none
    else if c.toNat < 0x20 then none
    else (parseStringBody rest).map (fun p => (c :: p.1, p.2))
termination_by l => l.length
decreasing_by
  · have hlen := readEscape_length h
    simp only [] at hlen
    simp only [List.length_cons]
    omega
  · simp only [List.length_cons]
    omega


mutual

/-- Parse one JSON value (string or object), with `fuel` bounding the
nesting depth. -/
def parseValue : Nat → List Char → Option (Json × List Char)
  | 0, _ => none
  | fuel + 1, l =>
    match skipWs l with
    | [] => none
    | c :: rest =>
      if c = '"' then
        (parseStringBody rest).map (fun p => (Json.str (String.mk p.1), p.2))
      else if c = '\x7b' then
        match skipWs rest with
        | [] => none
        | c2 :: rest2 =>
          if c2 = '\x7d' then some (Json.obj [], rest2)
          else (parseMembers fuel rest).map (fun p => (Json.obj p.1, p.2))
      else none

/-- Parse the non-empty member list of a JSON object, up to and including the
closing brace. -/
def parseMembers : Nat → List Char → Option (List (String × Json) × List Char)
  | 0, _ => none
  | fuel + 1, l =>
    match skipWs l with
    | [] => none
    | c :: rest =>
      if c = '"' then
        match parseStringBody rest with
        | some (key, rest2) =>
          (match skipWs rest2 with
           | [] => none
           | c2 :: rest3 =>
             if c2 = ':' then
               match parseValue fuel rest3 with
               | some (v, rest4) =>
                 (match skipWs rest4 with
                  | [] => none
                  | c3 :: rest5 =>
                    if c3 = ',' then
                      (parseMembers fuel rest5).map
                        (fun p => ((String.mk key, v) :: p.1, p.2))
                    else if c3 = '\x7d' then some ([(String.mk key, v)], rest5)
                    else none)
               | none => none
             else none)
        | none => none
      else none

end

/-- Parse a complete JSON document: one value followed only by whitespace.
Returns `none` on text that is not syntactically valid JSON.  The fuel
`s.length + 1` bounds the nesting depth by the input size, so it never cuts
off a parse. -/
def parse (s : String) : Option Json :=
  match parseValue (s.length + 1) s.data with
  | some (j, rest) => if skipWs rest = [] then some j else none
  | none => none

/-! Helper lemmas about characters, escaping and the parser. -/

@[simp] theorem mk_data (s : String) : String.mk s.data = s := rfl

@[simp] theorem data_append (a b : String) : (a ++ b).data = a.data ++ b.data := by
  cases a; cases b; rfl

@[simp] theorem escapeString_data (s : String) :
    (escapeString s).data = '"' :: (s.data.flatMap escapeChar ++ ['"']) := rfl

@[simp] theorem spaces_zero_data : (spaces 0).data = [] := rfl

@[simp] theorem spaces_four_data : (spaces 4).data = [' ', ' ', ' ', ' '] := rfl

@[simp] theorem spaces_eight_data :
    (spaces 8).data = [' ', ' ', ' ', ' ', ' ', ' ', ' ', ' '] := rfl

@[simp] theorem spaces_twelve_data :
    (spaces 12).data = [' ', ' ', ' ', ' ', ' ', ' ', ' ', ' ', ' ', ' ', ' ', ' '] := rfl

@[simp] theorem data_obrace_nl : "\x7b\n".data = ['\x7b', '\n'] := rfl

@[simp] theorem data_empty_obj : "\x7b\x7d".data = ['\x7b', '\x7d'] := rfl

@[simp] theorem data_cbrace : "\x7d".data = ['\x7d'] := rfl

@[simp] theorem data_colon_space : ": ".data = [':', ' '] := rfl

@[simp] theorem data_comma_nl : ",\n".data = [',', '\n'] := rfl

@[simp] theorem data_nl : "\n".data = ['\n'] := rfl

/-- Every code point is below `0xd800` or strictly between `0xdfff` and
`0x110000` (no surrogates, bounded by the Unicode range). -/
theorem char_toNat_valid (c : Char) :
    c.toNat < 0xd800 ∨ (0xdfff < c.toNat ∧ c.toNat < 0x110000) := by
  rcases c.valid with h | ⟨h1, h2⟩
  · exact Or.inl (UInt32.toNat_lt_of_lt (by decide) h)
  · exact Or.inr ⟨UInt32.lt_toNat_of_lt (by decide) h1,
      UInt32.toNat_lt_of_lt (by decide) h2⟩

/-- Reading back a hex digit recovers the value it names. -/
theorem hexVal_hexDigit (n : Nat) (h : n < 16) : hexVal (hexDigit n) = some n := by
  interval_cases n <;> decide

@[simp] theorem hexVal_hexDigit_mod (n : Nat) :
    hexVal (hexDigit (n % 16)) = some (n % 16) :=
  hexVal_hexDigit _ (Nat.mod_lt _ (by decide))

/-! Small-step characterizations of the string parser, so that proofs never
have to unfold the large mutual definitions wholesale. -/

theorem psb_quote (rest : List Char) :
    parseStringBody ('"' :: rest) = some ([], rest) := by
  rw [parseStringBody.eq_def]
  simp

theorem psb_plain {c : Char} (h1 : ¬c = '"') (h2 : ¬c = '\\')
    (h3 : ¬c.toNat < 0x20) (rest : List Char) :
    parseStringBody (c :: rest) =
      (parseStringBody rest).map (fun p => (c :: p.1, p.2)) := by
  rw [parseStringBody.eq_def]
  simp [h1, h2, h3]

theorem psb_esc {rest : List Char} {ch : Char} {rest1 : List Char}
    (h : readEscape rest = some (ch, rest1)) :
    parseStringBody ('\\' :: rest) =
      (parseStringBody rest1).map (fun p => (ch :: p.1, p.2)) := by
  rw [parseStringBody.eq_def]
  simp only []
  rw [if_neg (by decide : ¬('\\' : Char) = '"'), if_pos trivial]
  split
  · next heq =>
      rw [h] at heq
      cases heq
      rfl
  · next heq =>
      rw [h] at heq
      cases heq

theorem re_quote (rest : List Char) : readEscape ('"' :: rest) = some ('"', rest) := by
  simp [readEscape]

theorem re_bslash (rest : List Char) :
    readEscape ('\\' :: rest) = some ('\\', rest) := by
  simp [readEscape]

theorem re_b (rest : List Char) : readEscape ('b' :: rest) = some ('\x08', rest) := by
  simp [readEscape]

theorem re_f (rest : List Char) : readEscape ('f' :: rest) = some ('\x0c', rest) := by
  simp [readEscape]

theorem re_n (rest : List Char) : readEscape ('n' :: rest) = some ('\n', rest) := by
  simp [readEscape]

theorem re_r (rest : List Char) : readEscape ('r' :: rest) = some ('\r', rest) := by
  simp [readEscape]

theorem re_t (rest : List Char) : readEscape ('t' :: rest) = some ('\t', rest) := by
  simp [readEscape]

theorem readHex4_eq {a b c d : Char} {x y z w : Nat} (ha : hexVal a = some x)
    (hb : hexVal b = some y) (hc : hexVal c = some z) (hd : hexVal d = some w) :
    readHex4 a b c d = some (((x * 16 + y) * 16 + z) * 16 + w) := by
  simp [readHex4, ha, hb, hc, hd]

theorem re_u_bmp {a b c d : Char} {x y z w : Nat} (rest : List Char)
    (ha : hexVal a = some x) (hb : hexVal b = some y) (hc : hexVal c = some z)
    (hd : hexVal d = some w)
    (hcond : ((x * 16 + y) * 16 + z) * 16 + w < 0xd800 ∨
      0xdfff < ((x * 16 + y) * 16 + z) * 16 + w) :
    readEscape ('u' :: a :: b :: c :: d :: rest) =
      some (Char.ofNat (((x * 16 + y) * 16 + z) * 16 + w), rest) := by
  simp [readEscape, readUnicode, readHex4_eq ha hb hc hd, hcond]

theorem re_u_pair {a b c d a2 b2 c2 d2 : Char} {x y z w x2 y2 z2 w2 : Nat}
    (rest : List Char)
    (ha : hexVal a = some x) (hb : hexVal b = some y) (hc : hexVal c = some z)
    (hd : hexVal d = some w) (ha2 : hexVal a2 = some x2) (hb2 : hexVal b2 = some y2)
    (hc2 : hexVal c2 = some z2) (hd2 : hexVal d2 = some w2)
    (hno : ¬(((x * 16 + y) * 16 + z) * 16 + w < 0xd800 ∨
      0xdfff < ((x * 16 + y) * 16 + z) * 16 + w))
    (hhi : ((x * 16 + y) * 16 + z) * 16 + w ≤ 0xdbff)
    (hlo : 0xdc00 ≤ ((x2 * 16 + y2) * 16 + z2) * 16 + w2 ∧
      ((x2 * 16 + y2) * 16 + z2) * 16 + w2 ≤ 0xdfff) :
    readEscape ('u' :: a :: b :: c :: d :: '\\' :: 'u' :: a2 :: b2 :: c2 :: d2 :: rest) =
      some (Char.ofNat (0x10000 +
          ((((x * 16 + y) * 16 + z) * 16 + w) - 0xd800) * 0x400 +
          ((((x2 * 16 + y2) * 16 + z2) * 16 + w2) - 0xdc00)), rest) := by
  simp [readEscape, readUnicode, readLowSurrogate, readHex4_eq ha hb hc hd,
    readHex4_eq ha2 hb2 hc2 hd2, hno, hhi, hlo]

/-- Round trip through escaping for the body of a string literal: parsing the
escaped characters followed by the closing quote recovers the characters. -/
theorem psb_escape (l rest : List Char) :
    parseStringBody (l.flatMap escapeChar ++ '"' :: rest) = some (l, rest) := by
  induction l with
  | nil => simpa using psb_quote rest
  | cons c l ih =>
    rw [List.flatMap_cons, List.append_assoc]
    by_cases h1 : c = '"'
    · subst h1
      have hesc : escapeChar '"' = ['\\', '"'] := by simp +decide [escapeChar]
      rw [hesc]
      simp only [List.cons_append, List.nil_append]
      rw [psb_esc (re_quote _), ih]
      rfl
    by_cases h2 : c = '\\'
    · subst h2
      have hesc : escapeChar '\\' = ['\\', '\\'] := by simp +decide [escapeChar]
      rw [hesc]
      simp only [List.cons_append, List.nil_append]
      rw [psb_esc (re_bslash _), ih]
      rfl
    by_cases h3 : c = '\x08'
    · subst h3
      have hesc : escapeChar '\x08' = ['\\', 'b'] := by simp +decide [escapeChar]
      rw [hesc]
      simp only [List.cons_append, List.nil_append]
      rw [psb_esc (re_b _), ih]
      rfl
    by_cases h4 : c = '\x0c'
    · subst h4
      have hesc : escapeChar '\x0c' = ['\\', 'f'] := by simp +decide [escapeChar]
      rw [hesc]
      simp only [List.cons_append, List.nil_append]
      rw [psb_esc (re_f _), ih]
      rfl
    by_cases h5 : c = '\n'
    · subst h5
      have hesc : escapeChar '\n' = ['\\', 'n'] := by simp +decide [escapeChar]
      rw [hesc]
      simp only [List.cons_append, List.nil_append]
      rw [psb_esc (re_n _), ih]
      rfl
    by_cases h6 : c = '\r'
    · subst h6
      have hesc : escapeChar '\r' = ['\\', 'r'] := by simp +decide [escapeChar]
      rw [hesc]
      simp only [List.cons_append, List.nil_append]
      rw [psb_esc (re_r _), ih]
      rfl
    by_cases h7 : c = '\t'
    · subst h7
      have hesc : escapeChar '\t' = ['\\', 't'] := by simp +decide [escapeChar]
      rw [hesc]
      simp only [List.cons_append, List.nil_append]
      rw [psb_esc (re_t _), ih]
      rfl
    by_cases h8 : 0x20 ≤ c.toNat ∧ c.toNat ≤ 0x7e
    · have h20 : ¬(c.toNat < 0x20) := by omega
      have hesc : escapeChar c = [c] := by
        simp [escapeChar, h1, h2, h3, h4, h5, h6, h7, h8]
      rw [hesc]
      simp only [List.cons_append, List.nil_append]
      rw [psb_plain h1 h2 h20, ih]
      rfl
    by_cases h9 : c.toNat < 0x10000
    · have hv := char_toNat_valid c
      have hesc : escapeChar c = '\\' :: 'u' :: hex4 c.toNat := by
        simp [escapeChar, h1, h2, h3, h4, h5, h6, h7, h8, h9]
      have hda := hexVal_hexDigit_mod (c.toNat / 4096)
      have hdb := hexVal_hexDigit_mod (c.toNat / 256)
      have hdc := hexVal_hexDigit_mod (c.toNat / 16)
      have hdd := hexVal_hexDigit_mod c.toNat
      have hcond : ((c.toNat / 4096 % 16 * 16 + c.toNat / 256 % 16) * 16 +
            c.toNat / 16 % 16) * 16 + c.toNat % 16 < 0xd800 ∨
          0xdfff < ((c.toNat / 4096 % 16 * 16 + c.toNat / 256 % 16) * 16 +
            c.toNat / 16 % 16) * 16 + c.toNat % 16 := by omega
      have hrec : ((c.toNat / 4096 % 16 * 16 + c.toNat / 256 % 16) * 16 +
          c.toNat / 16 % 16) * 16 + c.toNat % 16 = c.toNat := by omega
      rw [hesc, hex4]
      simp only [List.cons_append, List.nil_append]
      rw [psb_esc (re_u_bmp _ hda hdb hdc hdd hcond), ih, hrec, Char.ofNat_toNat]
      rfl
    · have hv := char_toNat_valid c
      have hesc : escapeChar c =
          ('\\' :: 'u' :: hex4 (0xd800 + (c.toNat - 0x10000) / 0x400)) ++
          ('\\' :: 'u' :: hex4 (0xdc00 + (c.toNat - 0x10000) % 0x400)) := by
        simp [escapeChar, h1, h2, h3, h4, h5, h6, h7, h8, h9]
      have hda := hexVal_hexDigit_mod ((0xd800 + (c.toNat - 0x10000) / 0x400) / 4096)
      have hdb := hexVal_hexDigit_mod ((0xd800 + (c.toNat - 0x10000) / 0x400) / 256)
      have hdc := hexVal_hexDigit_mod ((0xd800 + (c.toNat - 0x10000) / 0x400) / 16)
      have hdd := hexVal_hexDigit_mod (0xd800 + (c.toNat - 0x10000) / 0x400)
      have hda2 := hexVal_hexDigit_mod ((0xdc00 + (c.toNat - 0x10000) % 0x400) / 4096)
      have hdb2 := hexVal_hexDigit_mod ((0xdc00 + (c.toNat - 0x10000) % 0x400) / 256)
      have hdc2 := hexVal_hexDigit_mod ((0xdc00 + (c.toNat - 0x10000) % 0x400) / 16)
      have hdd2 := hexVal_hexDigit_mod (0xdc00 + (c.toNat - 0x10000) % 0x400)
      have hno : ¬((((0xd800 + (c.toNat - 0x10000) / 0x400) / 4096 % 16 * 16 +
            (0xd800 + (c.toNat - 0x10000) / 0x400) / 256 % 16) * 16 +
            (0xd800 + (c.toNat - 0x10000) / 0x400) / 16 % 16) * 16 +
            (0xd800 + (c.toNat - 0x10000) / 0x400) % 16 < 0xd800 ∨
          0xdfff < (((0xd800 + (c.toNat - 0x10000) / 0x400) / 4096 % 16 * 16 +
            (0xd800 + (c.toNat - 0x10000) / 0x400) / 256 % 16) * 16 +
            (0xd800 + (c.toNat - 0x10000) / 0x400) / 16 % 16) * 16 +
            (0xd800 + (c.toNat - 0x10000) / 0x400) % 16) := by omega
      have hhi : (((0xd800 + (c.toNat - 0x10000) / 0x400) / 4096 % 16 * 16 +
            (0xd800 + (c.toNat - 0x10000) / 0x400) / 256 % 16) * 16 +
            (0xd800 + (c.toNat - 0x10000) / 0x400) / 16 % 16) * 16 +
            (0xd800 + (c.toNat - 0x10000) / 0x400) % 16 ≤ 0xdbff := by omega
      have hlo : 0xdc00 ≤ (((0xdc00 + (c.toNat - 0x10000) % 0x400) / 4096 % 16 * 16 +
            (0xdc00 + (c.toNat - 0x10000) % 0x400) / 256 % 16) * 16 +
            (0xdc00 + (c.toNat - 0x10000) % 0x400) / 16 % 16) * 16 +
            (0xdc00 + (c.toNat - 0x10000) % 0x400) % 16 ∧
          (((0xdc00 + (c.toNat - 0x10000) % 0x400) / 4096 % 16 * 16 +
            (0xdc00 + (c.toNat - 0x10000) % 0x400) / 256 % 16) * 16 +
            (0xdc00 + (c.toNat - 0x10000) % 0x400) / 16 % 16) * 16 +
            (0xdc00 + (c.toNat - 0x10000) % 0x400) % 16 ≤ 0xdfff := by omega
      have hfin : 0x10000 +
          ((((0xd800 + (c.toNat - 0x10000) / 0x400) / 4096 % 16 * 16 +
            (0xd800 + (c.toNat - 0x10000) / 0x400) / 256 % 16) * 16 +
            (0xd800 + (c.toNat - 0x10000) / 0x400) / 16 % 16) * 16 +
            (0xd800 + (c.toNat - 0x10000) / 0x400) % 16 - 0xd800) * 0x400 +
          ((((0xdc00 + (c.toNat - 0x10000) % 0x400) / 4096 % 16 * 16 +
            (0xdc00 + (c.toNat - 0x10000) % 0x400) / 256 % 16) * 16 +
            (0xdc00 + (c.toNat - 0x10000) % 0x400) / 16 % 16) * 16 +
            (0xdc00 + (c.toNat - 0x10000) % 0x400) % 16 - 0xdc00) = c.toNat := by
        omega
      rw [hesc, hex4, hex4]
      simp only [List.cons_append, List.nil_append]
      rw [psb_esc (re_u_pair _ hda hdb hdc hdd hda2 hdb2 hdc2 hdd2 hno hhi hlo),
        ih, hfin, Char.ofNat_toNat]
      rfl


/-! Step lemmas for whitespace skipping and the value parser. -/

@[simp] theorem sw_nil : skipWs [] = [] := by
  rw [skipWs.eq_def]

@[simp] theorem sw_space (l : List Char) : skipWs (' ' :: l) = skipWs l := by
  rw [skipWs.eq_def]
  simp

@[simp] theorem sw_newline (l : List Char) : skipWs ('\n' :: l) = skipWs l := by
  rw [skipWs.eq_def]
  simp

@[simp] theorem sw_quote (l : List Char) : skipWs ('"' :: l) = '"' :: l := by
  rw [skipWs.eq_def]
  simp +decide

@[simp] theorem sw_obrace (l : List Char) : skipWs ('\x7b' :: l) = '\x7b' :: l := by
  rw [skipWs.eq_def]
  simp +decide

@[simp] theorem sw_cbrace (l : List Char) : skipWs ('\x7d' :: l) = '\x7d' :: l := by
  rw [skipWs.eq_def]
  simp +decide

@[simp] theorem sw_colon (l : List Char) : skipWs (':' :: l) = ':' :: l := by
  rw [skipWs.eq_def]
  simp +decide

@[simp] theorem sw_comma (l : List Char) : skipWs (',' :: l) = ',' :: l := by
  rw [skipWs.eq_def]
  simp +decide

/-- Unfolding equation of `parseValue` for positive fuel. -/
theorem parseValue_succ (fuel : Nat) (l : List Char) :
    parseValue (fuel + 1) l =
      match skipWs l with
      | [] => none
      | c :: rest =>
        if c = '"' then
          (parseStringBody rest).map (fun p => (Json.str (String.mk p.1), p.2))
        else if c = '\x7b' then
          match skipWs rest with
          | [] => none
          | c2 :: rest2 =>
            if c2 = '\x7d' then some (Json.obj [], rest2)
            else (parseMembers fuel rest).map (fun p => (Json.obj p.1, p.2))
        else none := by
  rw [parseValue.eq_def]

/-- Unfolding equation of `parseMembers` for positive fuel. -/
theorem parseMembers_succ (fuel : Nat) (l : List Char) :
    parseMembers (fuel + 1) l =
      match skipWs l with
      | [] => none
      | c :: rest =>
        if c = '"' then
          match parseStringBody rest with
          | some (key, rest2) =>
            (match skipWs rest2 with
             | [] => none
             | c2 :: rest3 =>
               if c2 = ':' then
                 match parseValue fuel rest3 with
                 | some (v, rest4) =>
                   (match skipWs rest4 with
                    | [] => none
                    | c3 :: rest5 =>
                      if c3 = ',' then
                        (parseMembers fuel rest5).map
                          (fun p => ((String.mk key, v) :: p.1, p.2))
                      else if c3 = '\x7d' then some ([(String.mk key, v)], rest5)
                      else none)
                 | none => none
               else none)
          | none => none
        else none := by
  rw [parseMembers.eq_def]

/-- Parsing the serialized manifest recovers the manifest, for any fuel
reserve `f` (ten levels are enough for its nesting and member chains). -/
theorem parseValue_dumps (v d : String) (f : Nat) :
    parseValue (f + 1 + 1 + 1 + 1 + 1 + 1 + 1 + 1 + 1 + 1)
        ((dumps (manifest v d)).data) =
      some (manifest v d, []) := by
  simp +decide [dumps, dumpsVal, dumpsMembers, manifest, escapeString_data,
    parseValue_succ, parseMembers_succ, psb_escape, psb_plain, psb_quote,
    escapeChar]

/-- Parsing the printed output of the script recovers the manifest value. -/
theorem parse_dumps (v d : String) :
    parse (dumps (manifest v d)) = some (manifest v d) := by
  have hlen : 9 ≤ (dumps (manifest v d)).length := by
    show 9 ≤ (dumps (manifest v d)).data.length
    simp [dumps, dumpsVal, dumpsMembers, manifest, escapeString_data]
    omega
  rw [parse]
  rw [show (dumps (manifest v d)).length + 1 =
      (dumps (manifest v d)).length - 9 + 1 + 1 + 1 + 1 + 1 + 1 + 1 + 1 + 1 + 1 from by
    omega]
  rw [parseValue_dumps]
  simp

/-- Characterization of a successful metadata extraction. -/
theorem runManifest_some {m : Metadata} {j : Json} (h : runManifest m = some j) :
    ∃ p v dsc, m.packages.head? = some p ∧ p.version = some v ∧
      p.description = some dsc ∧ j = manifest v dsc := by
  unfold runManifest tmaze_metadata at h
  cases hp : m.packages.head? with
  | none => rw [hp] at h; simp only [] at h; cases h
  | some p =>
    rw [hp] at h
    simp only [] at h
    cases hv : p.version with
    | none => rw [hv] at h; simp only [] at h; cases h
    | some v =>
      rw [hv] at h
      cases hd : p.description with
      | none => rw [hd] at h; simp only [] at h; cases h
      | some dsc =>
        rw [hd] at h
        simp only [] at h
        exact ⟨p, v, dsc, rfl, hv, hd, (Option.some.inj h).symm⟩

/-- Injectivity of the character data of a string. -/
theorem data_inj {a b : String} (h : a.data = b.data) : a = b := by
  cases a
  cases b
  exact congrArg String.mk h

/-! The claims. -/

/-- C1: for every metadata whose packages list is non-empty and whose first
entry has version and description fields, the emitted manifest's top-level
`version` equals `packages[0].version` and `description` equals
`packages[0].description`. -/
theorem C1_manifest_version_description (m : Metadata) (p : Package)
    (v dsc : String) (hp : m.packages.head? = some p) (hv : p.version = some v)
    (hd : p.description = some dsc) :
    runManifest m = some (manifest v dsc) ∧
    getKey (manifest v dsc) "version" = some (Json.str v) ∧
    getKey (manifest v dsc) "description" = some (Json.str dsc) := by
  refine ⟨?_, ?_, ?_⟩
  · simp [runManifest, tmaze_metadata, hp, hv, hd]
  · simp +decide [getKey, manifest]
  · simp +decide [getKey, manifest]

/-- Witness for C1 at the spec example metadata, one package with version
`"1.2.3"` and description `"d"`. -/
theorem C1_witness :
    runManifest (Metadata.mk [Package.mk (some "1.2.3") (some "d") []] []) =
        some (manifest "1.2.3" "d") ∧
      getKey (manifest "1.2.3" "d") "version" = some (Json.str "1.2.3") ∧
      getKey (manifest "1.2.3" "d") "description" = some (Json.str "d") :=
  C1_manifest_version_description _ _ _ _ rfl rfl rfl

/-- C2: the manifest's `architecture.64bit.url` equals the concatenation of
the release-download prefix, the version, the platform asset name built from
the version, and the `#/tmaze.exe` fragment. -/
theorem C2_download_url (m : Metadata) (p : Package) (v dsc : String)
    (hp : m.packages.head? = some p) (hv : p.version = some v)
    (hd : p.description = some dsc) :
    runManifest m = some (manifest v dsc) ∧
    download_url v = "https://github.com/ur-fault/tmaze/releases/download/" ++ v ++
      "/tmaze-" ++ v ++ "-win-x86_64.exe#/tmaze.exe" ∧
    getPath (manifest v dsc) ["architecture", "64bit", "url"] =
      some (Json.str (download_url v)) := by
  refine ⟨by simp [runManifest, tmaze_metadata, hp, hv, hd], ?_, ?_⟩
  · apply data_inj
    simp [download_url, release_assets, tmaze_url]
  · simp +decide [getPath, getKey, manifest]

/-- Witness for C2 at version `"1.2.3"`: the URL is the concrete one the spec
names. -/
theorem C2_witness :
    download_url "1.2.3" =
      "https://github.com/ur-fault/tmaze/releases/download/" ++ "1.2.3" ++
        "/tmaze-" ++ "1.2.3" ++ "-win-x86_64.exe#/tmaze.exe" :=
  (C2_download_url (Metadata.mk [Package.mk (some "1.2.3") (some "d") []] [])
    _ _ _ rfl rfl rfl).2.1

/-- C3: the manifest's `architecture.checkver.url` is the literal template
string, not the interpolated `scoop_manifest` URL computed from the
version. -/
theorem C3_checkver_literal (m : Metadata) (p : Package) (v dsc : String)
    (hp : m.packages.head? = some p) (hv : p.version = some v)
    (hd : p.description = some dsc) :
    runManifest m = some (manifest v dsc) ∧
    getPath (manifest v dsc) ["architecture", "checkver", "url"] =
      some (Json.str "\x7bscoop_manifest\x7d") ∧
    Json.str "\x7bscoop_manifest\x7d" ≠ Json.str (scoop_manifest v) := by
  refine ⟨by simp [runManifest, tmaze_metadata, hp, hv, hd], ?_, ?_⟩
  · simp +decide [getPath, getKey, manifest]
  · intro hcontra
    have h2 := Json.str.inj hcontra
    have h3 := congrArg String.data h2
    simp +decide [scoop_manifest, release_assets, tmaze_url] at h3

/-- Witness for C3 at version `"1.2.3"`. -/
theorem C3_witness :
    getPath (manifest "1.2.3" "d") ["architecture", "checkver", "url"] =
        some (Json.str "\x7bscoop_manifest\x7d") ∧
      Json.str "\x7bscoop_manifest\x7d" ≠ Json.str (scoop_manifest "1.2.3") :=
  ⟨(C3_checkver_literal (Metadata.mk [Package.mk (some "1.2.3") (some "d") []] [])
      _ _ _ rfl rfl rfl).2.1,
    (C3_checkver_literal (Metadata.mk [Package.mk (some "1.2.3") (some "d") []] [])
      _ _ _ rfl rfl rfl).2.2⟩

/-- C4: the run fails (fatal lookup error, nothing printed) exactly when the
packages list is empty or the first package lacks version or description;
otherwise it succeeds and prints the serialized manifest. -/
theorem C4_fatal_iff (m : Metadata) :
    (run m = none ↔ m.packages = [] ∨
      ∃ p ps, m.packages = p :: ps ∧ (p.version = none ∨ p.description = none)) ∧
    (∀ p ps v dsc, m.packages = p :: ps → p.version = some v →
      p.description = some dsc → run m = some (dumps (manifest v dsc))) := by
  constructor
  · cases hps : m.packages with
    | nil => simp [run, runManifest, tmaze_metadata, hps]
    | cons p ps =>
      cases hv : p.version with
      | none => simp [run, runManifest, tmaze_metadata, hps, hv]
      | some v =>
        cases hd : p.description with
        | none => simp [run, runManifest, tmaze_metadata, hps, hv, hd]
        | some dsc => simp [run, runManifest, tmaze_metadata, hps, hv, hd]
  · intro p ps v dsc hps hv hd
    simp [run, runManifest, tmaze_metadata, hps, hv, hd]

/-- Witness for C4: the empty packages list fails; the spec example
succeeds. -/
theorem C4_witness :
    run (Metadata.mk [] []) = none ∧
      run (Metadata.mk [Package.mk (some "1.2.3") (some "d") []] []) =
        some (dumps (manifest "1.2.3" "d")) :=
  ⟨(C4_fatal_iff (Metadata.mk [] [])).1.mpr (Or.inl rfl),
    (C4_fatal_iff (Metadata.mk [Package.mk (some "1.2.3") (some "d") []] [])).2
      _ [] "1.2.3" "d" rfl rfl rfl⟩

/-- C5: the emitted manifest's `architecture.checkver.jsonpath` is always the
literal `"$.version"`, independent of the input. -/
theorem C5_jsonpath (m : Metadata) (j : Json) (h : runManifest m = some j) :
    getPath j ["architecture", "checkver", "jsonpath"] =
      some (Json.str "$.version") := by
  obtain ⟨p, v, dsc, _, _, _, rfl⟩ := runManifest_some h
  simp +decide [getPath, getKey, manifest]

/-- Witness for C5 at the spec example metadata. -/
theorem C5_witness :
    getPath (manifest "1.2.3" "d") ["architecture", "checkver", "jsonpath"] =
      some (Json.str "$.version") :=
  C5_jsonpath (Metadata.mk [Package.mk (some "1.2.3") (some "d") []] [])
    (manifest "1.2.3" "d") rfl

/-- C6: the emitted manifest always contains `architecture.autoupdate` with an
empty mapping as value, regardless of the input. -/
theorem C6_autoupdate_empty (m : Metadata) (j : Json)
    (h : runManifest m = some j) :
    getPath j ["architecture", "autoupdate"] = some (Json.obj []) := by
  obtain ⟨p, v, dsc, _, _, _, rfl⟩ := runManifest_some h
  simp +decide [getPath, getKey, manifest]

/-- Witness for C6 at the spec example metadata. -/
theorem C6_witness :
    getPath (manifest "1.2.3" "d") ["architecture", "autoupdate"] =
      some (Json.obj []) :=
  C6_autoupdate_empty (Metadata.mk [Package.mk (some "1.2.3") (some "d") []] [])
    (manifest "1.2.3" "d") rfl

/-- C7: on every successful run the printed text is syntactically valid JSON
and parses back to exactly the manifest value that was serialized. -/
theorem C7_roundtrip (m : Metadata) (out : String) (h : run m = some out) :
    ∃ j, runManifest m = some j ∧ out = dumps j ∧ parse out = some j := by
  unfold run at h
  cases hm : runManifest m with
  | none => rw [hm] at h; cases h
  | some j =>
    rw [hm] at h
    simp only [Option.map_some', Option.some.injEq] at h
    obtain ⟨p, v, dsc, _, _, _, rfl⟩ := runManifest_some hm
    refine ⟨manifest v dsc, rfl, h.symm, ?_⟩
    rw [← h]
    exact parse_dumps v dsc

/-- Witness for C7 at the spec example metadata. -/
theorem C7_witness :
    ∃ j, runManifest (Metadata.mk [Package.mk (some "1.2.3") (some "d") []] []) =
        some j ∧
      dumps (manifest "1.2.3" "d") = dumps j ∧
      parse (dumps (manifest "1.2.3" "d")) = some j :=
  C7_roundtrip (Metadata.mk [Package.mk (some "1.2.3") (some "d") []] [])
    (dumps (manifest "1.2.3" "d")) rfl

/-- C8: the serialized output lists the keys in authored order (version,
architecture with 64bit, checkver, autoupdate inside, description, homepage)
with 4-space indentation, as shown by the literal output template. -/
theorem C8_output_format (v d : String) :
    dumps (manifest v d) =
      "\x7b\n    \"version\": " ++ escapeString v ++
      ",\n    \"architecture\": \x7b\n        \"64bit\": \x7b\n            \"url\": " ++
      escapeString (download_url v) ++
      "\n        \x7d,\n        \"checkver\": \x7b\n            \"url\": \"\x7bscoop_manifest\x7d\",\n            \"jsonpath\": \"$.version\"\n        \x7d,\n        \"autoupdate\": \x7b\x7d\n    \x7d,\n    \"description\": " ++
      escapeString d ++
      ",\n    \"homepage\": \"https://github.com/ur-fault/tmaze\"\n\x7d" := by
  apply data_inj
  simp +decide [dumps, dumpsVal, dumpsMembers, manifest, escapeString_data,
    escapeChar, tmaze_url]

/-- C9: the emitted manifest's top-level `homepage` is always the constant
repository URL, independent of the metadata. -/
theorem C9_homepage (m : Metadata) (j : Json) (h : runManifest m = some j) :
    getKey j "homepage" = some (Json.str "https://github.com/ur-fault/tmaze") := by
  obtain ⟨p, v, dsc, _, _, _, rfl⟩ := runManifest_some h
  simp +decide [getKey, manifest, tmaze_url]

/-- Witness for C9 at the spec example metadata. -/
theorem C9_witness :
    getKey (manifest "1.2.3" "d") "homepage" =
      some (Json.str "https://github.com/ur-fault/tmaze") :=
  C9_homepage (Metadata.mk [Package.mk (some "1.2.3") (some "d") []] [])
    (manifest "1.2.3" "d") rfl

/-- C10: the output depends only on `packages[0].version` and
`packages[0].description`: metadata agreeing on those two fields produce
identical output, whatever their other content. -/
theorem C10_noninterference (m1 m2 : Metadata) (p1 p2 : Package)
    (h1 : m1.packages.head? = some p1) (h2 : m2.packages.head? = some p2)
    (hv : p1.version = p2.version) (hd : p1.description = p2.description) :
    run m1 = run m2 := by
  simp only [run, runManifest, tmaze_metadata, h1, h2]
  rw [hv, hd]

/-- Witness for C10: two metadata objects differing in extra package fields,
extra packages and extra top-level content, agreeing on the two extracted
fields, give identical output. -/
theorem C10_witness :
    run (Metadata.mk [Package.mk (some "1.2.3") (some "d") [("license", "MIT")]]
        [("workspace", "w")]) =
      run (Metadata.mk [Package.mk (some "1.2.3") (some "d") [],
        Package.mk (some "9.9.9") (some "other") []] []) :=
  C10_noninterference _ _ _ _ rfl rfl rfl rfl

end TMaze